import Mathlib

/-!
Verification development for a runtime CSS injection helper (style-loader).

The JavaScript source is shallowly embedded as pure Lean functions over an
explicit session state `Sess`.  Object identity of descriptor objects,
registry entries and DOM elements is modelled by `Nat` tokens allocated from
a counter in the session state; the registry cache maps a module id to a
bucket of (descriptor token, entry token) pairs, and entry objects live in a
separate `heap` so that aliasing between the cache and the closures mirrors
the JavaScript heap.  Environment capabilities (target resolution, blob URL
support, old-IE detection, the `styleSheet` property) and the external
collaborators (`fixUrls`, base64 encoding) are fields of `Env`.
-/

namespace StyleLoader

/-- One CSS fragment with its media query and source map.
An empty `sourceMap` / `media` string models the absent (falsy) value. -/
structure Part where
  css : String
  media : String
  sourceMap : String
  deriving DecidableEq, Repr

/-- One input tuple `[id, css, media, sourceMap]` of the caller-supplied list. -/
structure Item where
  id : Nat
  css : String
  media : String
  sourceMap : String
  deriving DecidableEq, Repr

/-- A style-module descriptor produced by `listToStyles`.  `token` models the
object identity of the freshly allocated descriptor. -/
structure Style where
  token : Nat
  id : Nat
  parts : List Part
  deriving DecidableEq, Repr

/-- Appends `p` to the parts of the first descriptor carrying `id`
(`newStyles[id].parts.push(part)`). -/
def pushPart : List Style → Nat → Part → List Style
  | [], _, _ => []
  | s :: rest, id, p =>
    if s.id == id then { s with parts := s.parts ++ [p] } :: rest
    else s :: pushPart rest id p

/-- Loop body of `listToStyles`: `acc` is the `result` array (the `newStyles`
map of the source is represented by the ids present in `acc`), `tok` is the
allocator for descriptor object identities. -/
def listToStylesAux (tok : Nat) (acc : List Style) : List Item → List Style × Nat
  | [] => (acc, tok)
  | item :: rest =>
    let part : Part := ⟨item.css, item.media, item.sourceMap⟩
    if acc.any (fun s => s.id == item.id) then
      listToStylesAux tok (pushPart acc item.id part) rest
    else
      listToStylesAux (tok + 1) (acc ++ [⟨tok, item.id, [part]⟩]) rest

/-- Source `listToStyles(list)`: groups the input tuples by id into descriptors,
returning the descriptors and the next fresh identity token. -/
def listToStyles (tok : Nat) (list : List Item) : List Style × Nat :=
  listToStylesAux tok [] list

/-- First-seen order of the distinct elements of a list; stated from the
spec sentence on grouping order, to be compared with `listToStyles`. -/
def firstSeenFrom (seen : List Nat) : List Nat → List Nat
  | [] => seen
  | x :: xs =>
    if seen.any (fun y => y == x) then firstSeenFrom seen xs
    else firstSeenFrom (seen ++ [x]) xs

/-- First-seen order of the distinct elements of a list. -/
def firstSeen (l : List Nat) : List Nat := firstSeenFrom [] l

/-! ### The registry (`stylesInDom`) -/

/-- A bucket of a single module id: (descriptor token, entry token) pairs. -/
abbrev Bucket := List (Nat × Nat)

/-- The registry cache: module id to bucket. -/
abbrev Cache := List (Nat × Bucket)

/-- Association-list lookup, modelling property access on a JS object. -/
def lookupTok {α : Type} : List (Nat × α) → Nat → Option α
  | [], _ => none
  | (k, v) :: rest, key => if k == key then some v else lookupTok rest key

/-- Association-list update-or-append, modelling property assignment. -/
def setTok {α : Type} : List (Nat × α) → Nat → α → List (Nat × α)
  | [], key, v => [(key, v)]
  | (k, w) :: rest, key, v =>
    if k == key then (key, v) :: rest else (k, w) :: setTok rest key v

/-- Association-list key removal, modelling `delete obj[key]`. -/
def removeTok {α : Type} : List (Nat × α) → Nat → List (Nat × α)
  | [], _ => []
  | (k, w) :: rest, key =>
    if k == key then rest else (k, w) :: removeTok rest key

/-- Source `stylesInDom.get(style)`: the bucket of `style.id` filtered by descriptor
identity; the first match's entry is returned. -/
def cacheGet (c : Cache) (style : Style) : Option Nat :=
  match lookupTok c style.id with
  | none => none
  | some bucket =>
    ((bucket.filter (fun s => s.1 == style.token)).map (fun s => s.2)).head?

/-- Loop of `stylesInDom.set`: overwrite the pair with the given descriptor
token, or push a new pair at the end. -/
def bucketSet : Bucket → Nat → Nat → Bucket
  | [], tok, etok => [(tok, etok)]
  | p :: rest, tok, etok =>
    if p.1 == tok then (tok, etok) :: rest else p :: bucketSet rest tok etok

/-- Source `stylesInDom.set(style, domStyle)`. -/
def cacheSet (c : Cache) (style : Style) (etok : Nat) : Cache :=
  match lookupTok c style.id with
  | none => setTok c style.id [(style.token, etok)]
  | some bucket => setTok c style.id (bucketSet bucket style.token etok)

/-- Source `stylesInDom.delete(domStyle)`: filters the bucket by entry identity into
a local variable and deletes the id key only when the filtered bucket is
empty; the filtered bucket is otherwise discarded, exactly as in the source. -/
def cacheDelete (c : Cache) (id : Nat) (etok : Nat) : Cache :=
  match lookupTok c id with
  | none => removeTok c id
  | some bucket =>
    if (bucket.filter (fun s => s.2 != etok)).isEmpty then removeTok c id
    else c

/-! ### Session state, environment, options -/

/-- A part-update strategy, decided once per part handle at creation time. -/
inductive Strategy where
  | singletonSlot (elem : Nat) (index : Nat)
  | blobLink (elem : Nat)
  | inlineTag (elem : Nat)
  deriving DecidableEq, Repr

/-- Normalized options as seen by the internals after the entry point has
applied the defaults. -/
structure Opts where
  convertToAbsoluteUrls : Option Bool
  singleton : Bool
  insertAt : String
  deriving DecidableEq, Repr

/-- A part handle: the `updateStyle` closure returned by `addStyle`, with its
captured strategy, captured normalized options and captured current part
(`obj`). -/
structure Handle where
  strat : Strategy
  opts : Opts
  applied : Part
  deriving DecidableEq, Repr

/-- A registry entry (`{ id, refs, parts }`), the `domStyle` object. -/
structure Entry where
  id : Nat
  refs : Int
  handles : List Handle
  deriving DecidableEq, Repr

/-- The mutable state of one style-carrying element. -/
structure ElemState where
  isLink : Bool
  attached : Bool
  href : String
  cssText : String
  childTexts : List String
  media : String
  deriving DecidableEq, Repr

/-- The process-wide mutable state. -/
structure Sess where
  cache : Cache
  heap : List (Nat × Entry)
  elems : List (Nat × ElemState)
  children : List Nat
  topList : List Nat
  singletonElement : Option Nat
  singletonCounter : Nat
  textStore : List String
  blobs : List (String × String)
  urlCounter : Nat
  nextTok : Nat
  deriving DecidableEq, Repr

/-- The rendering environment: whether the insertion target resolves, the
capability checks of the source, and the external collaborators. -/
structure Env where
  targetExists : Bool
  hasBlobApis : Bool
  oldIE : Bool
  hasStyleSheet : Bool
  fixUrls : String → String
  b64Encode : String → String

/-- Caller-supplied options before defaulting. -/
structure OptionsIn where
  convertToAbsoluteUrls : Option Bool := none
  singleton : Option Bool := none
  insertAt : Option String := none
  deriving Repr

/-- Option defaulting performed by the entry point: `singleton` defaults to
the old-IE capability check, `insertAt` defaults to bottom. -/
def normalizeOpts (env : Env) (o : OptionsIn) : Opts :=
  { convertToAbsoluteUrls := o.convertToAbsoluteUrls
    singleton := o.singleton.getD env.oldIE
    insertAt := o.insertAt.getD "bottom" }

/-- The empty session: a fresh process. -/
def freshSess : Sess :=
  { cache := [], heap := [], elems := [], children := [], topList := []
    singletonElement := none, singletonCounter := 0, textStore := []
    blobs := [], urlCounter := 0, nextTok := 0 }

/-- Reads an element's state (a dangling token reads as a default record). -/
def getElemState (sess : Sess) (e : Nat) : ElemState :=
  (lookupTok sess.elems e).getD ⟨false, false, "", "", [], ""⟩

/-- Writes an element's state. -/
def setElemState (sess : Sess) (e : Nat) (st : ElemState) : Sess :=
  { sess with elems := setTok sess.elems e st }

/-- Mutates an element's state in place. -/
def modElem (sess : Sess) (e : Nat) (f : ElemState → ElemState) : Sess :=
  setElemState sess e (f (getElemState sess e))

/-! ### Element insertion and removal -/

/-- Placement of the `insertAt: top` branch: insert directly after the most
recently top-inserted element, via its `nextSibling` when present, else by
appending. -/
def insertAtTop (children : List Nat) (lastTop : Option Nat) (e : Nat) :
    List Nat :=
  match lastTop with
  | none => e :: children
  | some last =>
    match children.indexOf? last with
    | some i =>
      if i + 1 < children.length then children.insertIdx (i + 1) e
      else children ++ [e]
    | none => children ++ [e]

/-- Source `insertStyleElement(options, styleElement)`: resolves the target (throws
when absent), then places the element per `insertAt` (throws on any other
value), recording top insertions in `styleElementsInsertedAtTop`. -/
def insertStyleElement (env : Env) (opts : Opts) (e : Nat) (sess : Sess) :
    Except String Sess :=
  if !env.targetExists then
    .error "Couldnt find a style target"
  else if opts.insertAt == "top" then
    let lastTop := sess.topList.getLast?
    let sess := modElem sess e (fun st => { st with attached := true })
    .ok { sess with children := insertAtTop sess.children lastTop e
                    topList := sess.topList ++ [e] }
  else if opts.insertAt == "bottom" then
    let sess := modElem sess e (fun st => { st with attached := true })
    .ok { sess with children := sess.children ++ [e] }
  else
    .error "Invalid value for parameter insertAt"

/-- Source `removeStyleElement(styleElement)`: detach from the parent and splice the
element out of the top-insertion list. -/
def removeStyleElement (sess : Sess) (e : Nat) : Sess :=
  let sess := modElem sess e (fun st => { st with attached := false })
  { sess with children := sess.children.erase e
              topList := sess.topList.erase e }

/-- Allocates a fresh element of the given kind and inserts it
(`createStyleElement` / `createLinkElement`). -/
def createElem (env : Env) (opts : Opts) (isLink : Bool) (sess : Sess) :
    Except String (Nat × Sess) :=
  let e := sess.nextTok
  let sess :=
    { sess with nextTok := e + 1
                elems := setTok sess.elems e
                  { isLink := isLink, attached := false, href := ""
                    cssText := "", childTexts := [], media := "" } }
  (insertStyleElement env opts e sess).map (fun s => (e, s))

/-- Source `createStyleElement(options)`. -/
def createStyleElement (env : Env) (opts : Opts) (sess : Sess) :
    Except String (Nat × Sess) :=
  createElem env opts false sess

/-- Source `createLinkElement(options)`. -/
def createLinkElement (env : Env) (opts : Opts) (sess : Sess) :
    Except String (Nat × Sess) :=
  createElem env opts true sess

/-! ### Singleton strategy (`replaceText` / `applyToSingletonTag`) -/

/-- Assignment `textStore[index] = replacement` on the process-wide slot list, padding
sparse holes with the empty string. -/
def setSlot : List String → Nat → String → List String
  | [], 0, v => [v]
  | [], n + 1, v => "" :: setSlot [] n v
  | _ :: rest, 0, v => v :: rest
  | s :: rest, n + 1, v => s :: setSlot rest n v

/-- The join `Array.prototype.join` with a newline separator. -/
def joinNl : List String → String
  | [] => ""
  | [s] => s
  | s :: rest => s ++ "\n" ++ joinNl rest

/-- The rendering `textStore.filter(Boolean).join('\n')`: the non-empty slots joined by
newlines. -/
def renderStore (store : List String) : String :=
  joinNl (store.filter (fun s => s != ""))

/-- Source `applyToSingletonTag(styleElement, index, remove, obj)`: writes the slot
and re-renders through `replaceText` on the legacy `styleSheet` path, or
splices the text child node at `index` otherwise. -/
def applyToSingletonTag (env : Env) (sess : Sess) (e : Nat) (index : Nat)
    (remove : Bool) (obj : Option Part) : Sess :=
  let css := if remove then "" else (obj.getD ⟨"", "", ""⟩).css
  if env.hasStyleSheet then
    let store := setSlot sess.textStore index css
    let sess := { sess with textStore := store }
    modElem sess e (fun st => { st with cssText := renderStore store })
  else
    modElem sess e (fun st =>
      let nodes := st.childTexts
      let nodes := if index < nodes.length then nodes.eraseIdx index else nodes
      let nodes :=
        if nodes.length != 0 then
          if index < nodes.length then nodes.insertIdx index css
          else nodes ++ [css]
        else [css]
      { st with childTexts := nodes })

/-! ### Inline strategy (`applyToTag`) -/

/-- Source `applyToTag(styleElement, obj)`. -/
def applyToTag (env : Env) (sess : Sess) (e : Nat) (obj : Part) : Sess :=
  let sess :=
    if obj.media != "" then
      modElem sess e (fun st => { st with media := obj.media })
    else sess
  if env.hasStyleSheet then
    modElem sess e (fun st => { st with cssText := obj.css })
  else
    modElem sess e (fun st => { st with childTexts := [obj.css] })

/-! ### Blob-link strategy (`updateLink`) -/

/-- Source `autoFixUrls`: `convertToAbsoluteUrls` left unset while a source map is
present. -/
def autoFixUrls (opts : Opts) (sourceMap : String) : Bool :=
  opts.convertToAbsoluteUrls == none && sourceMap != ""

/-- The guard `options.convertToAbsoluteUrls || autoFixUrls` (an unset or
explicitly false option is falsy). -/
def fixerApplied (opts : Opts) (sourceMap : String) : Bool :=
  opts.convertToAbsoluteUrls.getD false || autoFixUrls opts sourceMap

/-- The embedded source-map comment appended to the CSS. -/
def smComment (env : Env) (sourceMap : String) : String :=
  "\n/*# sourceMappingURL=data:application/json;base64," ++
    env.b64Encode sourceMap ++ " */"

/-- The CSS text packaged into the blob by `updateLink`: optionally rewritten
by the URL fixer, then suffixed with the source-map comment when a source map
is present. -/
def linkCss (env : Env) (opts : Opts) (obj : Part) : String :=
  let css := obj.css
  let css := if fixerApplied opts obj.sourceMap then env.fixUrls css else css
  if obj.sourceMap != "" then css ++ smComment env obj.sourceMap else css

/-- A primitive observable step of `updateLink`. -/
inductive LinkOp where
  | createUrl (url : String) (content : String)
  | setHref (elem : Nat) (url : String)
  | revokeUrl (url : String)
  deriving DecidableEq, Repr

/-- The object URL `URL.createObjectURL` returns for the next blob. -/
def freshUrl (sess : Sess) : String := "blob:" ++ toString sess.urlCounter

/-- The ordered observable steps of one `updateLink` call: create the blob
URL, assign it to the link's href, and only then revoke the previous href's
URL when one existed. -/
def updateLinkOps (env : Env) (opts : Opts) (sess : Sess) (e : Nat)
    (obj : Part) : List LinkOp :=
  let css := linkCss env opts obj
  let u := freshUrl sess
  let oldSrc := (getElemState sess e).href
  [LinkOp.createUrl u css, LinkOp.setHref e u] ++
    (if oldSrc != "" then [LinkOp.revokeUrl oldSrc] else [])

/-- Interprets one observable step. -/
def applyLinkOp (sess : Sess) : LinkOp → Sess
  | .createUrl u content =>
    { sess with blobs := sess.blobs ++ [(u, content)]
                urlCounter := sess.urlCounter + 1 }
  | .setHref e u => modElem sess e (fun st => { st with href := u })
  | .revokeUrl u =>
    { sess with blobs := sess.blobs.filter (fun b => b.1 != u) }

/-- Source `updateLink(linkElement, options, obj)`. -/
def updateLink (env : Env) (opts : Opts) (sess : Sess) (e : Nat)
    (obj : Part) : Sess :=
  (updateLinkOps env opts sess e obj).foldl applyLinkOp sess

/-! ### Part handles (`addStyle` / `updateStyle`) -/

/-- Dispatches a handle's captured `update` function. -/
def stratUpdate (env : Env) (opts : Opts) (sess : Sess) :
    Strategy → Part → Sess
  | .singletonSlot e idx, obj => applyToSingletonTag env sess e idx false (some obj)
  | .blobLink e, obj => updateLink env opts sess e obj
  | .inlineTag e, obj => applyToTag env sess e obj

/-- Dispatches a handle's captured `remove` function. -/
def stratRemove (env : Env) (sess : Sess) : Strategy → Sess
  | .singletonSlot e idx => applyToSingletonTag env sess e idx true none
  | .blobLink e =>
    let sess := removeStyleElement sess e
    let href := (getElemState sess e).href
    if href != "" then
      { sess with blobs := sess.blobs.filter (fun b => b.1 != href) }
    else sess
  | .inlineTag e => removeStyleElement sess e

/-- Source `addStyle(obj, options)`: selects the strategy, creating the backing
element as needed, applies the initial update and returns the handle. -/
def addStyle (env : Env) (opts : Opts) (obj : Part) (sess : Sess) :
    Except String (Handle × Sess) :=
  if opts.singleton then
    let styleIndex := sess.singletonCounter
    let sess := { sess with singletonCounter := styleIndex + 1 }
    let el : Except String (Nat × Sess) :=
      match sess.singletonElement with
      | some e => Except.ok (e, sess)
      | none =>
        (createStyleElement env opts sess).map
          (fun p => (p.1, { p.2 with singletonElement := some p.1 }))
    el.map
      (fun p =>
        let strat := Strategy.singletonSlot p.1 styleIndex
        let sess := applyToSingletonTag env p.2 p.1 styleIndex false (some obj)
        (⟨strat, opts, obj⟩, sess))
  else if obj.sourceMap != "" && env.hasBlobApis then
    (createLinkElement env opts sess).map
      (fun p =>
        let strat := Strategy.blobLink p.1
        let sess := updateLink env opts p.2 p.1 obj
        (⟨strat, opts, obj⟩, sess))
  else
    (createStyleElement env opts sess).map
      (fun p =>
        let strat := Strategy.inlineTag p.1
        let sess := applyToTag env p.2 p.1 obj
        (⟨strat, opts, obj⟩, sess))

/-- The `updateStyle` closure: with a part, short-circuit when it is
field-wise identical to the captured one, else update and capture it; with
none, remove. -/
def runHandle (env : Env) (sess : Sess) (h : Handle) (newObj : Option Part) :
    Sess × Handle :=
  match newObj with
  | some newObj =>
    if newObj.css == h.applied.css && newObj.media == h.applied.media &&
        newObj.sourceMap == h.applied.sourceMap then
      (sess, h)
    else
      (stratUpdate env h.opts sess h.strat newObj, { h with applied := newObj })
  | none => (stratRemove env sess h.strat, h)

/-- Refresh loop of `addStylesToDom`'s hit branch:
`domStyle.parts[j](style.parts[j])` for every existing handle, where a
missing incoming part is `undefined`. -/
def runHandles (env : Env) (sess : Sess) :
    List Handle → List Part → Sess × List Handle
  | [], _ => (sess, [])
  | h :: hs, ps =>
    let p := runHandle env sess h ps.head?
    let rest := runHandles env p.1 hs (ps.drop 1)
    (rest.1, p.2 :: rest.2)

/-- Creation loop: one `addStyle` per part. -/
def addStyles (env : Env) (opts : Opts) :
    List Part → Sess → Except String (List Handle × Sess)
  | [], sess => .ok ([], sess)
  | p :: ps, sess => do
    let hp ← addStyle env opts p sess
    let hps ← addStyles env opts ps hp.2
    .ok (hp.1 :: hps.1, hps.2)

/-- Source `addStylesToDom(styles, options)`: per descriptor, refresh the registry
entry found by descriptor identity (bump refs, update existing handles,
append handles for trailing new parts) or create a fresh entry with refs 1. -/
def addStylesToDom (env : Env) (opts : Opts) :
    List Style → Sess → Except String Sess
  | [], sess => .ok sess
  | style :: rest, sess =>
    match cacheGet sess.cache style with
    | some etok =>
      match lookupTok sess.heap etok with
      | none => .error "dangling registry entry"
      | some entry => do
        let refs := entry.refs + 1
        let ref := runHandles env sess entry.handles style.parts
        let app ← addStyles env opts (style.parts.drop entry.handles.length) ref.1
        let newEntry := { entry with refs := refs, handles := ref.2 ++ app.1 }
        let sess := { app.2 with heap := setTok app.2.heap etok newEntry }
        addStylesToDom env opts rest sess
    | none => do
      let hp ← addStyles env opts style.parts sess
      let etok := hp.2.nextTok
      let sess :=
        { hp.2 with nextTok := etok + 1
                    heap := setTok hp.2.heap etok ⟨style.id, 1, hp.1⟩
                    cache := cacheSet hp.2.cache style etok }
      addStylesToDom env opts rest sess

/-! ### The entry point and the returned update closure -/

/-- The state captured by the returned `update` closure. -/
structure Closure where
  styles : List Style
  opts : Opts
  deriving Repr

/-- The public entry point `module.exports = function (list, options)`. -/
def install (env : Env) (o : OptionsIn) (list : List Item) (sess : Sess) :
    Except String (Closure × Sess) :=
  let opts := normalizeOpts env o
  let st := listToStyles sess.nextTok list
  let sess := { sess with nextTok := st.2 }
  (addStylesToDom env opts st.1 sess).map (fun s => (⟨st.1, opts⟩, s))

/-- First loop of the update closure: decrement the refs of every entry the
previous call tracked, collecting them in `mayRemove` (a lookup miss
dereferences `undefined` and throws). -/
def decRefs (sess : Sess) : List Style → Except String (List Nat × Sess)
  | [] => .ok ([], sess)
  | style :: rest =>
    match cacheGet sess.cache style with
    | none => .error "TypeError: domStyle is undefined"
    | some etok =>
      match lookupTok sess.heap etok with
      | none => .error "dangling registry entry"
      | some entry =>
        let decd := { entry with refs := entry.refs - 1 }
        let sess := { sess with heap := setTok sess.heap etok decd }
        (decRefs sess rest).map (fun p => (etok :: p.1, p.2))

/-- Invokes every handle of an entry with no argument (removal). -/
def removeEntryParts (env : Env) (sess : Sess) : List Handle → Sess
  | [] => sess
  | h :: hs => removeEntryParts env (runHandle env sess h none).1 hs

/-- Final loop of the update closure: entries whose refs reached zero have
all their part handles invoked for removal and are then deleted from the
registry. -/
def sweep (env : Env) : List Nat → Sess → Sess
  | [], sess => sess
  | etok :: rest, sess =>
    match lookupTok sess.heap etok with
    | none => sweep env rest sess
    | some entry =>
      if entry.refs == 0 then
        let sess := removeEntryParts env sess entry.handles
        let sess := { sess with cache := cacheDelete sess.cache entry.id etok }
        sweep env rest sess
      else sweep env rest sess

/-- The returned `update(newList)` closure. -/
def runUpdate (env : Env) (cl : Closure) (newList : Option (List Item))
    (sess : Sess) : Except String Sess := do
  let dec ← decRefs sess cl.styles
  let sess ←
    match newList with
    | some l =>
      let st := listToStyles dec.2.nextTok l
      addStylesToDom env cl.opts st.1 { dec.2 with nextTok := st.2 }
    | none => Except.ok dec.2
  .ok (sweep env dec.1 sess)

/-- The `Except` success test. -/
def exceptOk {ε α : Type} : Except ε α → Bool
  | .ok _ => true
  | .error _ => false

/-- The `Except` success value. -/
def exceptVal {ε α : Type} : Except ε α → Option α
  | .ok a => some a
  | .error _ => none

/-! ### Concrete environments and scenarios used by individual theorems -/

/-- A modern environment without blob support: parts use the inline
strategy. -/
def envInline : Env :=
  { targetExists := true, hasBlobApis := false, oldIE := false
    hasStyleSheet := true, fixUrls := id, b64Encode := id }

/-- A modern environment with blob support: parts carrying a source map use
the blob-link strategy. -/
def envBlob : Env :=
  { targetExists := true, hasBlobApis := true, oldIE := false
    hasStyleSheet := false, fixUrls := id, b64Encode := id }

/-- Normalized options requesting top insertion. -/
def topOpts : Opts := { convertToAbsoluteUrls := none, singleton := false, insertAt := "top" }

/-- Normalized default options (bottom insertion, no singleton). -/
def bottomOpts : Opts := { convertToAbsoluteUrls := none, singleton := false, insertAt := "bottom" }

/-- A one-module list whose part carries a source map. -/
def c2list : List Item := [⟨1, "a", "", "m"⟩]

/-- Two independent installs of `c2list` followed by their two teardowns in
order. -/
def c2run : Except String Sess := do
  let r1 ← install envBlob {} c2list freshSess
  let r2 ← install envBlob {} c2list r1.2
  let s3 ← runUpdate envBlob r1.1 none r2.2
  runUpdate envBlob r2.1 none s3

/-- One install of `c2list` followed by its teardown. -/
def c2run1 : Except String Sess := do
  let r1 ← install envBlob {} c2list freshSess
  runUpdate envBlob r1.1 none r1.2

/-- A one-module, one-part list without source map. -/
def c4list : List Item := [⟨1, "a", "", ""⟩]

/-- Install of `c4list`, then the returned update closure called with a
field-wise identical list; the pair is (state after install, state after
update). -/
def c4pair : Option (Sess × Sess) :=
  exceptVal (do
    let r1 ← install envInline {} c4list freshSess
    let s2 ← runUpdate envInline r1.1 (some c4list) r1.2
    Except.ok (r1.2, s2))

/-- A two-part module list. -/
def c10list : List Item := [⟨1, "a", "", ""⟩, ⟨1, "b", "", ""⟩]

/-- Install of the two-part module, then `addStylesToDom` re-registering the
same descriptor object (token 0) with a single part. -/
def c10run : Except String Sess := do
  let r1 ← install envInline {} c10list freshSess
  addStylesToDom envInline r1.1.opts [⟨0, 1, [⟨"c", "", ""⟩]⟩] r1.2

/-- The parts of the first descriptor of `acc` carrying the given id, empty
when absent; used to state the grouping invariant. -/
def accParts (acc : List Style) (id : Nat) : List Part :=
  ((acc.find? (fun s => s.id == id)).map (fun s => s.parts)).getD []

/-- The parts contributed by the tuples of `list` carrying the given id, in
input order; the reference value for the grouping theorem. -/
def partsOf (list : List Item) (id : Nat) : List Part :=
  (list.filter (fun it => it.id == id)).map
    (fun it => ⟨it.css, it.media, it.sourceMap⟩)

/-- The successive states produced by interpreting a list of observable
steps. -/
def opStates (sess : Sess) : List LinkOp → List Sess
  | [] => []
  | op :: rest => applyLinkOp sess op :: opStates (applyLinkOp sess op) rest

/-- All observable micro-states of a sequence of `updateLink` calls. -/
def linkTrace (env : Env) (opts : Opts) (e : Nat) (sess : Sess) :
    List Part → List Sess
  | [] => []
  | obj :: rest =>
    opStates sess (updateLinkOps env opts sess e obj) ++
      linkTrace env opts e (updateLink env opts sess e obj) rest

/-- A part with a source map, for the blob-link witnesses. -/
def c8obj : Part := ⟨"a", "", "m"⟩

/-- A second part with a source map. -/
def c8obj2 : Part := ⟨"b", "", "m"⟩

/-- The micro-states of a second `updateLink` call run after a first one. -/
def c8trace : List Sess :=
  linkTrace envBlob bottomOpts 3 (updateLink envBlob bottomOpts freshSess 3 c8obj) [c8obj2]

/-- The two fatal conditions are absent: the insertion target resolves and
`insertAt` is one of the two recognized values. -/
def goodOpts (env : Env) (opts : Opts) : Prop :=
  env.targetExists = true ∧ (opts.insertAt = "top" ∨ opts.insertAt = "bottom")

/-- One of the two fatal conditions holds: the insertion target does not
resolve, or `insertAt` is neither recognized value. -/
def badOpts (env : Env) (opts : Opts) : Prop :=
  env.targetExists = false ∨ (opts.insertAt ≠ "top" ∧ opts.insertAt ≠ "bottom")

/-- Every entry token reachable from the registry cache is live in the
heap. -/
def HeapWF (sess : Sess) : Prop :=
  ∀ p ∈ sess.cache, ∀ q ∈ p.2, (lookupTok sess.heap q.2).isSome = true

/-! ### Association-list and bucket lemmas -/

theorem lookupTok_setTok_self {α : Type} (l : List (Nat × α)) (k : Nat) (v : α) :
    lookupTok (setTok l k v) k = some v := by
  induction l with
  | nil => simp [setTok, lookupTok]
  | cons p rest ih =>
    obtain ⟨a, b⟩ := p
    by_cases h : a = k
    · simp [setTok, lookupTok, h]
    · simp [setTok, lookupTok, h, ih]

theorem lookupTok_setTok_other {α : Type} (l : List (Nat × α)) (k k2 : Nat)
    (v : α) (h : k ≠ k2) : lookupTok (setTok l k v) k2 = lookupTok l k2 := by
  induction l with
  | nil => simp [setTok, lookupTok, h]
  | cons p rest ih =>
    obtain ⟨a, b⟩ := p
    by_cases ha : a = k
    · simp [setTok, lookupTok, ha, h]
    · by_cases ha2 : a = k2
      · simp [setTok, lookupTok, ha, ha2, Ne.symm h]
      · simp [setTok, lookupTok, ha, ha2, ih]

theorem getElemState_setElemState_self (sess : Sess) (e : Nat) (st : ElemState) :
    getElemState (setElemState sess e st) e = st := by
  simp [getElemState, setElemState, lookupTok_setTok_self]

@[simp] theorem modElem_cache (sess : Sess) (e : Nat) (f : ElemState → ElemState) :
    (modElem sess e f).cache = sess.cache := rfl

@[simp] theorem modElem_heap (sess : Sess) (e : Nat) (f : ElemState → ElemState) :
    (modElem sess e f).heap = sess.heap := rfl

@[simp] theorem modElem_children (sess : Sess) (e : Nat) (f : ElemState → ElemState) :
    (modElem sess e f).children = sess.children := rfl

@[simp] theorem modElem_topList (sess : Sess) (e : Nat) (f : ElemState → ElemState) :
    (modElem sess e f).topList = sess.topList := rfl

@[simp] theorem modElem_singletonElement (sess : Sess) (e : Nat)
    (f : ElemState → ElemState) :
    (modElem sess e f).singletonElement = sess.singletonElement := rfl

@[simp] theorem modElem_singletonCounter (sess : Sess) (e : Nat)
    (f : ElemState → ElemState) :
    (modElem sess e f).singletonCounter = sess.singletonCounter := rfl

@[simp] theorem modElem_textStore (sess : Sess) (e : Nat)
    (f : ElemState → ElemState) :
    (modElem sess e f).textStore = sess.textStore := rfl

@[simp] theorem modElem_blobs (sess : Sess) (e : Nat) (f : ElemState → ElemState) :
    (modElem sess e f).blobs = sess.blobs := rfl

@[simp] theorem modElem_urlCounter (sess : Sess) (e : Nat)
    (f : ElemState → ElemState) :
    (modElem sess e f).urlCounter = sess.urlCounter := rfl

@[simp] theorem modElem_nextTok (sess : Sess) (e : Nat) (f : ElemState → ElemState) :
    (modElem sess e f).nextTok = sess.nextTok := rfl

theorem getElemState_setElemState_other (sess : Sess) (e e2 : Nat)
    (st : ElemState) (h : e ≠ e2) :
    getElemState (setElemState sess e st) e2 = getElemState sess e2 := by
  simp [getElemState, setElemState, lookupTok_setTok_other _ _ _ _ h]

/-! ### C1: top-insertion ordering -/

theorem insertAtTop_after_head (a b : Nat) (orig : List Nat) :
    insertAtTop (a :: orig) (some a) b = a :: b :: orig := by
  cases orig with
  | nil => simp [insertAtTop, List.indexOf?_cons]
  | cons c t =>
    simp [insertAtTop, List.indexOf?_cons, List.insertIdx_succ_cons,
      List.insertIdx_zero]

/-- C1 (amended): with a fresh top-insertion list and `insertAt: top`,
inserting element `a` and then element `b` into the same resolved target
yields document order `[a, b, ...originalTargetChildren]` — each new top
insertion lands directly after the most recently top-inserted element, so
the later-inserted element follows the earlier one. -/
theorem insertStyleElement_top_spec (env : Env) (opts : Opts) (e : Nat)
    (sess : Sess) (henv : env.targetExists = true) (hat : opts.insertAt = "top") :
    insertStyleElement env opts e sess =
      Except.ok { modElem sess e (fun st => { st with attached := true }) with
                  children := insertAtTop sess.children sess.topList.getLast? e
                  topList := sess.topList ++ [e] } := by
  simp [insertStyleElement, henv, hat]

theorem c1_top_insertion_order (env : Env) (henv : env.targetExists = true)
    (orig : List Nat) (a b : Nat) :
    ((insertStyleElement env topOpts a { freshSess with children := orig }).bind
        (insertStyleElement env topOpts b)).map
      (fun s => (s.children, s.topList)) =
      Except.ok (a :: b :: orig, [a, b]) := by
  rw [insertStyleElement_top_spec env topOpts a _ henv rfl]
  have h1c : (insertAtTop ({ freshSess with children := orig } : Sess).children
      ({ freshSess with children := orig } : Sess).topList.getLast? a) = a :: orig := by
    simp [freshSess, insertAtTop]
  rw [show (Except.ok (α := Sess) (ε := String)
        { modElem { freshSess with children := orig } a
            (fun st => { st with attached := true }) with
          children := insertAtTop ({ freshSess with children := orig } : Sess).children
            ({ freshSess with children := orig } : Sess).topList.getLast? a
          topList := ({ freshSess with children := orig } : Sess).topList ++ [a] }).bind
        (insertStyleElement env topOpts b) =
      insertStyleElement env topOpts b
        { modElem { freshSess with children := orig } a
            (fun st => { st with attached := true }) with
          children := insertAtTop ({ freshSess with children := orig } : Sess).children
            ({ freshSess with children := orig } : Sess).topList.getLast? a
          topList := ({ freshSess with children := orig } : Sess).topList ++ [a] }
      from rfl]
  rw [insertStyleElement_top_spec env topOpts b _ henv rfl]
  simp [Except.map, h1c, freshSess, insertAtTop_after_head]
  rw [show insertAtTop orig none a = a :: orig from rfl]
  exact insertAtTop_after_head a b orig

theorem c1_top_insertion_order_witness :
    ((insertStyleElement envInline topOpts 1 { freshSess with children := [7] }).bind
        (insertStyleElement envInline topOpts 2)).map
      (fun s => (s.children, s.topList)) =
      Except.ok (1 :: 2 :: [7], [1, 2]) :=
  c1_top_insertion_order envInline rfl [7] 1 2

/-- C1 counterexample: with original children `[7]`, inserting `1` then `2`
at the top yields document order `[1, 2, 7]`, not `[2, 1, 7]` as the claim
states. -/
theorem c1_counterexample :
    (exceptVal ((insertStyleElement envInline topOpts 1
          { freshSess with children := [7] }).bind
        (insertStyleElement envInline topOpts 2))).map (fun s => s.children) =
        some [1, 2, 7] ∧
      (some [1, 2, 7] : Option (List Nat)) ≠ some [2, 1, 7] := by
  constructor
  · rfl
  · decide

/-! ### C2: n installs followed by n teardowns -/

/-- C2 (evaluation at the failing input): after two independent installs of
the same single-id list and both teardowns in order, every created element is
detached and every blob URL is revoked, but the registry still holds the two
stale (descriptor, entry) pairs — `stylesInDom.delete` discards the filtered
bucket whenever it stays non-empty, so with `n = 2` neither entry is ever
removed; with `n = 1` the registry does end up empty. -/
theorem c2_teardown_leaves_registry_entries :
    (exceptVal c2run).map (fun s =>
        (s.elems.all (fun p => !p.2.attached), s.blobs, s.cache.isEmpty)) =
      some (true, [], false) ∧
    (exceptVal c2run1).map (fun s =>
        (s.elems.all (fun p => !p.2.attached), s.blobs, s.cache.isEmpty)) =
      some (true, [], true) :=
  ⟨rfl, rfl⟩

/-! ### C4: update with a field-wise identical list -/

/-- C4 counterexample: after installing `c4list` and calling the returned
update closure with a field-wise identical list, the element backing the
overlapping part (token 1), attached after install, has been detached — the
second call did mutate the DOM for the overlapping part. -/
theorem c4_counterexample :
    c4pair.map (fun p =>
        ((getElemState p.1 1).attached, (getElemState p.2 1).attached)) =
      some (true, false) :=
  rfl

/-- C4 (amended): a part handle invoked with a field-wise identical part is
a no-op (no state change at all, hence no DOM mutation); but the returned
update closure never reaches this short-circuit, because it groups its list
into fresh descriptor objects that miss the identity-keyed registry: calling
it with a field-wise identical list creates a new element and a new entry
with refs 1 (tokens 4 and 5) and tears the old entry (token 2) down to refs
0, detaching its element. -/
theorem c4_identity_miss_churn :
    (∀ (env : Env) (sess : Sess) (h : Handle) (obj : Part),
      (obj.css == h.applied.css && obj.media == h.applied.media &&
        obj.sourceMap == h.applied.sourceMap) = true →
      runHandle env sess h (some obj) = (sess, h)) ∧
    c4pair.map (fun p =>
        ((getElemState p.2 4).attached,
          (lookupTok p.2.heap 5).map (fun en => en.refs),
          (lookupTok p.2.heap 2).map (fun en => en.refs))) =
      some (true, some 1, some 0) := by
  constructor
  · intro env sess h obj hEq
    simp [runHandle, hEq]
  · rfl

theorem c4_identity_miss_churn_witness :
    runHandle envInline freshSess
        ⟨Strategy.inlineTag 0, bottomOpts, ⟨"a", "", ""⟩⟩ (some ⟨"a", "", ""⟩) =
      (freshSess, ⟨Strategy.inlineTag 0, bottomOpts, ⟨"a", "", ""⟩⟩) :=
  c4_identity_miss_churn.1 envInline freshSess
    ⟨Strategy.inlineTag 0, bottomOpts, ⟨"a", "", ""⟩⟩ ⟨"a", "", ""⟩ (by decide)

/-! ### C9: when the URL fixer is applied -/

/-- C9: in blob-link mode the URL fixer is applied to a part's css exactly
when `convertToAbsoluteUrls` is `some true`, or it was left unset and the
part carries a source map; with an explicit `some false` the fixer is never
applied, source map or not.  The second conjunct ties the boolean guard to
the css actually packaged by `updateLink`. -/
theorem c9_fixer_condition :
    (∀ (opts : Opts) (sm : String),
      fixerApplied opts sm = true ↔
        (opts.convertToAbsoluteUrls = some true ∨
          (opts.convertToAbsoluteUrls = none ∧ sm ≠ ""))) ∧
    (∀ (env : Env) (opts : Opts) (obj : Part),
      linkCss env opts obj =
        if fixerApplied opts obj.sourceMap then
          (if obj.sourceMap ≠ "" then
            env.fixUrls obj.css ++ smComment env obj.sourceMap
          else env.fixUrls obj.css)
        else
          (if obj.sourceMap ≠ "" then obj.css ++ smComment env obj.sourceMap
          else obj.css)) := by
  constructor
  · intro opts sm
    cases hc : opts.convertToAbsoluteUrls with
    | none => simp [fixerApplied, autoFixUrls, hc]
    | some bb => cases bb <;> simp [fixerApplied, autoFixUrls, hc]
  · intro env opts obj
    cases hf : fixerApplied opts obj.sourceMap <;>
      simp [linkCss, hf, bne_iff_ne]

theorem c9_fixer_condition_witness :
    fixerApplied bottomOpts "m" = true :=
  (c9_fixer_condition.1 bottomOpts "m").mpr (Or.inr ⟨rfl, by decide⟩)

/-! ### C10: refresh with fewer incoming parts -/

/-- C10: the refresh loop returns exactly as many handles as it was given
(the handle list never shrinks); a handle invoked with no part takes the
removal branch; and concretely, re-registering the tracked two-part
descriptor with a single part leaves the entry with refs 2 and both handles,
the refreshed part's element attached and the surplus part's element
detached. -/
theorem c10_surplus_parts :
    (∀ (env : Env) (sess : Sess) (hs : List Handle) (ps : List Part),
      ((runHandles env sess hs ps).2).length = hs.length) ∧
    (∀ (env : Env) (sess : Sess) (h : Handle),
      runHandle env sess h none = (stratRemove env sess h.strat, h)) ∧
    (exceptVal c10run).map (fun s =>
        ((lookupTok s.heap 3).map (fun en => (en.refs, en.handles.length)),
          (getElemState s 1).attached, (getElemState s 2).attached)) =
      some (some (2, 2), true, false) := by
  refine ⟨?_, ?_, ?_⟩
  · intro env sess hs ps
    induction hs generalizing sess ps with
    | nil => simp [runHandles]
    | cons h hs ih => simp [runHandles, ih]
  · intro env sess h
    rfl
  · rfl

/-! ### C7: singleton slot splicing -/

theorem getElemState_modElem_self (sess : Sess) (e : Nat)
    (f : ElemState → ElemState) :
    getElemState (modElem sess e f) e = f (getElemState sess e) :=
  getElemState_setElemState_self sess e (f (getElemState sess e))

theorem applyToSingletonTag_singletonCounter (env : Env) (sess : Sess)
    (e idx : Nat) (r : Bool) (obj : Option Part) :
    (applyToSingletonTag env sess e idx r obj).singletonCounter =
      sess.singletonCounter := by
  cases henv : env.hasStyleSheet <;> simp [applyToSingletonTag, henv]

theorem removeStyleElement_singletonCounter (sess : Sess) (e : Nat) :
    (removeStyleElement sess e).singletonCounter = sess.singletonCounter := rfl

theorem stratRemove_singletonCounter (env : Env) (sess : Sess) (st : Strategy) :
    (stratRemove env sess st).singletonCounter = sess.singletonCounter := by
  cases st with
  | singletonSlot e idx => exact applyToSingletonTag_singletonCounter env sess e idx true none
  | blobLink e =>
    simp only [stratRemove]
    split <;> simp [removeStyleElement]
  | inlineTag e => rfl

/-- C7: with the shared singleton element holding slots 0 and 1, removing
slot 0 (overwritten with the empty string, not deleted) while slot 1 stays
applied re-renders the element text to slot 1's css alone, the empty slot
being dropped from the newline join; moreover slot indices come from a
counter that every singleton handle creation increments and that no removal
ever decrements, so indices are never reused after a removal. -/
theorem c7_singleton_slots :
    (∀ (env : Env) (sess0 : Sess) (e : Nat) (css0 css1 : String),
      env.hasStyleSheet = true → sess0.textStore = [] → css1 ≠ "" →
      let s3 := applyToSingletonTag env
        (applyToSingletonTag env
          (applyToSingletonTag env sess0 e 0 false (some ⟨css0, "", ""⟩))
          e 1 false (some ⟨css1, "", ""⟩))
        e 0 true none
      (getElemState s3 e).cssText = css1 ∧ s3.textStore = ["", css1]) ∧
    (∀ (env : Env) (opts : Opts) (obj : Part) (sess : Sess) (e : Nat),
      opts.singleton = true → sess.singletonElement = some e →
      (exceptVal (addStyle env opts obj sess)).map
          (fun r => (r.1.strat, r.2.singletonCounter)) =
        some (Strategy.singletonSlot e sess.singletonCounter,
          sess.singletonCounter + 1)) ∧
    (∀ (env : Env) (sess : Sess) (h : Handle),
      ((runHandle env sess h none).1).singletonCounter =
        sess.singletonCounter) := by
  refine ⟨?_, ?_, ?_⟩
  · intro env sess0 e css0 css1 hss hts h1
    have hb1 : (css1 != "") = true := bne_iff_ne.mpr h1
    simp only [applyToSingletonTag, hss, if_true, hts]
    simp [getElemState_modElem_self, setSlot, renderStore, hb1, joinNl,
      List.filter]
  · intro env opts obj sess e hsing hse
    simp [addStyle, hsing, hse, exceptVal, Except.map,
      applyToSingletonTag_singletonCounter]
  · intro env sess h
    simp [runHandle, stratRemove_singletonCounter]

theorem c7_singleton_slots_witness :
    (getElemState (applyToSingletonTag envInline
        (applyToSingletonTag envInline
          (applyToSingletonTag envInline freshSess 9 0 false (some ⟨"x", "", ""⟩))
          9 1 false (some ⟨"y", "", ""⟩))
        9 0 true none) 9).cssText = "y" ∧
      (applyToSingletonTag envInline
        (applyToSingletonTag envInline
          (applyToSingletonTag envInline freshSess 9 0 false (some ⟨"x", "", ""⟩))
          9 1 false (some ⟨"y", "", ""⟩))
        9 0 true none).textStore = ["", "y"] :=
  c7_singleton_slots.1 envInline freshSess 9 "x" "y" rfl rfl (by decide)

/-! ### C3: id-colliding live entries do not cross-contaminate -/

theorem bucketSet_get_self (b : Bucket) (tok etok : Nat) :
    (((bucketSet b tok etok).filter (fun s => s.1 == tok)).map
      (fun s => s.2)).head? = some etok := by
  induction b with
  | nil => simp [bucketSet]
  | cons p rest ih =>
    obtain ⟨t, e⟩ := p
    by_cases h : t = tok
    · simp [bucketSet, h]
    · simp [bucketSet, h, ih]

theorem bucketSet_filter_other (b : Bucket) (tok tok2 etok : Nat)
    (h : tok ≠ tok2) :
    (bucketSet b tok etok).filter (fun s => s.1 == tok2) =
      b.filter (fun s => s.1 == tok2) := by
  induction b with
  | nil => simp [bucketSet, h]
  | cons p rest ih =>
    obtain ⟨t, e⟩ := p
    by_cases ht : t = tok
    · simp [bucketSet, ht, h]
    · simp [bucketSet, ht, ih, List.filter_cons]

theorem cacheGet_eq (c : Cache) (s : Style) :
    cacheGet c s =
      ((((lookupTok c s.id).getD []).filter (fun q => q.1 == s.token)).map
        (fun q => q.2)).head? := by
  unfold cacheGet
  cases lookupTok c s.id <;> simp

theorem cacheSet_eq (c : Cache) (s : Style) (etok : Nat) :
    cacheSet c s etok =
      setTok c s.id (bucketSet ((lookupTok c s.id).getD []) s.token etok) := by
  unfold cacheSet
  cases lookupTok c s.id <;> simp [bucketSet]

theorem cacheGet_cacheSet_self (c : Cache) (s : Style) (etok : Nat) :
    cacheGet (cacheSet c s etok) s = some etok := by
  rw [cacheSet_eq, cacheGet_eq, lookupTok_setTok_self]
  simp only [Option.getD_some]
  exact bucketSet_get_self _ s.token etok

theorem cacheGet_cacheSet_other (c : Cache) (s t : Style) (etok : Nat)
    (h : t.token ≠ s.token) : cacheGet (cacheSet c s etok) t = cacheGet c t := by
  rw [cacheSet_eq, cacheGet_eq, cacheGet_eq]
  by_cases hid : t.id = s.id
  · rw [hid, lookupTok_setTok_self]
    simp only [Option.getD_some]
    rw [bucketSet_filter_other _ s.token t.token etok (Ne.symm h)]
  · rw [lookupTok_setTok_other c s.id t.id _ (Ne.symm hid)]

theorem head?_filter_mem {b : Bucket} {tok etok : Nat}
    (hh : ((b.filter (fun s => s.1 == tok)).map (fun s => s.2)).head? =
      some etok) : ∃ q ∈ b, q.2 = etok := by
  cases hf : b.filter (fun s => s.1 == tok) with
  | nil => rw [hf] at hh; simp at hh
  | cons q rest =>
    rw [hf] at hh
    simp at hh
    have hqmem : q ∈ b.filter (fun s => s.1 == tok) := by
      rw [hf]; exact List.mem_cons_self q rest
    exact ⟨q, List.mem_of_mem_filter hqmem, hh⟩

theorem cacheDelete_noop (c : Cache) (s : Style) (e1 etok : Nat)
    (hget : cacheGet c s = some etok) (hne : etok ≠ e1) :
    cacheDelete c s.id e1 = c := by
  rw [cacheGet_eq] at hget
  obtain ⟨q, hqmem, hq2⟩ := head?_filter_mem hget
  have hqf : q ∈ ((lookupTok c s.id).getD []).filter (fun r => r.2 != e1) :=
    List.mem_filter.mpr ⟨hqmem, by simp [hq2, bne_iff_ne, hne]⟩
  unfold cacheDelete
  split
  · rename_i hb
    rw [hb] at hqf
    simp at hqf
  · rename_i bucket hb
    rw [hb] at hqf
    simp only [Option.getD_some] at hqf
    cases hfil : bucket.filter (fun r => r.2 != e1) with
    | nil => rw [hfil] at hqf; cases hqf
    | cons a t => simp

/-- C3: registering two distinct descriptor objects (different tokens) that
carry the same module id stores two distinct live entries; lookup by either
descriptor returns exactly its own entry, and evicting either entry leaves
the other entry's lookup (presence and contents) unchanged. -/
theorem c3_registry_isolation (c : Cache) (s1 s2 : Style) (e1 e2 : Nat)
    (htok : s1.token ≠ s2.token) (_hid : s1.id = s2.id) (he : e1 ≠ e2) :
    cacheGet (cacheSet (cacheSet c s1 e1) s2 e2) s1 = some e1 ∧
    cacheGet (cacheSet (cacheSet c s1 e1) s2 e2) s2 = some e2 ∧
    cacheGet (cacheDelete (cacheSet (cacheSet c s1 e1) s2 e2) s2.id e1) s2 =
      some e2 ∧
    cacheGet (cacheDelete (cacheSet (cacheSet c s1 e1) s2 e2) s1.id e2) s1 =
      some e1 := by
  have g1 : cacheGet (cacheSet (cacheSet c s1 e1) s2 e2) s1 = some e1 := by
    rw [cacheGet_cacheSet_other (cacheSet c s1 e1) s2 s1 e2 htok]
    exact cacheGet_cacheSet_self c s1 e1
  have g2 : cacheGet (cacheSet (cacheSet c s1 e1) s2 e2) s2 = some e2 :=
    cacheGet_cacheSet_self (cacheSet c s1 e1) s2 e2
  refine ⟨g1, g2, ?_, ?_⟩
  · rw [cacheDelete_noop _ s2 e1 e2 g2 (Ne.symm he)]
    exact g2
  · rw [cacheDelete_noop _ s1 e2 e1 g1 he]
    exact g1

theorem c3_registry_isolation_witness :
    cacheGet (cacheSet (cacheSet [] ⟨0, 1, []⟩ 10) ⟨5, 1, []⟩ 11) ⟨0, 1, []⟩ =
      some 10 ∧
    cacheGet (cacheSet (cacheSet [] ⟨0, 1, []⟩ 10) ⟨5, 1, []⟩ 11) ⟨5, 1, []⟩ =
      some 11 ∧
    cacheGet (cacheDelete (cacheSet (cacheSet [] ⟨0, 1, []⟩ 10) ⟨5, 1, []⟩ 11)
        1 10) ⟨5, 1, []⟩ = some 11 ∧
    cacheGet (cacheDelete (cacheSet (cacheSet [] ⟨0, 1, []⟩ 10) ⟨5, 1, []⟩ 11)
        1 11) ⟨0, 1, []⟩ = some 10 :=
  c3_registry_isolation [] ⟨0, 1, []⟩ ⟨5, 1, []⟩ 10 11 (by decide) rfl (by decide)
/-! ### C5: grouping the input list into descriptors -/

theorem pushPart_map_id (acc : List Style) (id : Nat) (p : Part) :
    (pushPart acc id p).map (fun s => s.id) = acc.map (fun s => s.id) := by
  induction acc with
  | nil => rfl
  | cons s rest ih =>
    by_cases h : s.id = id
    · simp [pushPart, h]
    · simp [pushPart, h, ih]

theorem any_map_id (acc : List Style) (n : Nat) :
    (acc.map (fun s => s.id)).any (fun y => y == n) =
      acc.any (fun s => s.id == n) := by
  induction acc with
  | nil => rfl
  | cons s rest ih => simp [List.any_cons, ih]

theorem listToStylesAux_map_id (rest : List Item) :
    ∀ (tok : Nat) (acc : List Style),
      ((listToStylesAux tok acc rest).1).map (fun s => s.id) =
        firstSeenFrom (acc.map (fun s => s.id)) (rest.map (fun it => it.id)) := by
  induction rest with
  | nil => intro tok acc; rfl
  | cons item rest ih =>
    intro tok acc
    cases h : acc.any (fun s => s.id == item.id) with
    | true =>
      simp only [listToStylesAux, h, if_true, List.map_cons]
      rw [ih tok _, pushPart_map_id]
      simp only [firstSeenFrom, any_map_id, h, if_true]
    | false =>
      simp only [listToStylesAux, h, if_false, Bool.false_eq_true, List.map_cons]
      rw [ih]
      simp only [firstSeenFrom, any_map_id, h, if_false, Bool.false_eq_true,
        List.map_append, List.map_cons, List.map_nil]

theorem firstSeenFrom_nodup (l : List Nat) :
    ∀ seen : List Nat, seen.Nodup → (firstSeenFrom seen l).Nodup := by
  induction l with
  | nil => intro seen h; exact h
  | cons x xs ih =>
    intro seen h
    cases hx : seen.any (fun y => y == x) with
    | true => simpa [firstSeenFrom, hx] using ih seen h
    | false =>
      have hnx : x ∉ seen := by
        intro hmem
        have := List.any_eq_false.mp hx x hmem
        simp at this
      simp only [firstSeenFrom, hx, if_false, Bool.false_eq_true]
      exact ih _ (by simp [List.nodup_append, h, hnx])

theorem accParts_cons_pos (s : Style) (rest : List Style) (id : Nat)
    (hs : s.id = id) : accParts (s :: rest) id = s.parts := by
  simp only [accParts]
  rw [List.find?_cons_of_pos _ (by simp [hs])]
  rfl

theorem accParts_cons_neg (s : Style) (rest : List Style) (id : Nat)
    (hs : s.id ≠ id) : accParts (s :: rest) id = accParts rest id := by
  simp only [accParts]
  rw [List.find?_cons_of_neg _ (by simp [hs])]

theorem find?_eq_of_mem_nodup (acc : List Style) (s : Style)
    (hnd : (acc.map (fun t => t.id)).Nodup) (hs : s ∈ acc) :
    acc.find? (fun t => t.id == s.id) = some s := by
  induction acc with
  | nil => cases hs
  | cons a rest ih =>
    rw [List.map_cons, List.nodup_cons] at hnd
    rcases List.mem_cons.mp hs with rfl | hmem
    · exact List.find?_cons_of_pos _ (by simp)
    · have hne : a.id ≠ s.id := by
        intro hEq
        apply hnd.1
        rw [hEq]
        exact List.mem_map_of_mem _ hmem
      rw [List.find?_cons_of_neg _ (by simp [hne])]
      exact ih hnd.2 hmem

theorem any_cons_false {p : Style → Bool} {s : Style} {rest : List Style}
    (h : (s :: rest).any p = false) : p s = false ∧ rest.any p = false := by
  constructor
  · simpa using List.any_eq_false.mp h s (List.mem_cons_self s rest)
  · apply List.any_eq_false.mpr
    intro t ht
    exact List.any_eq_false.mp h t (List.mem_cons_of_mem s ht)

theorem accParts_pushPart_self (acc : List Style) (id : Nat) (p : Part)
    (h : acc.any (fun s => s.id == id) = true) :
    accParts (pushPart acc id p) id = accParts acc id ++ [p] := by
  induction acc with
  | nil => simp at h
  | cons s rest ih =>
    by_cases hs : s.id = id
    · have hb : (s.id == id) = true := by simp [hs]
      simp only [pushPart, hb, if_true]
      rw [accParts_cons_pos _ rest id (by simpa using hs),
        accParts_cons_pos s rest id hs]
    · have hb : (s.id == id) = false := by simp [hs]
      simp only [pushPart, hb, if_false, Bool.false_eq_true]
      rw [accParts_cons_neg s _ id hs, accParts_cons_neg s rest id hs]
      have h' : rest.any (fun t => t.id == id) = true := by
        have := h
        rw [List.any_cons, hb] at this
        simpa using this
      exact ih h'

theorem accParts_pushPart_other (acc : List Style) (id id2 : Nat) (p : Part)
    (h : id2 ≠ id) : accParts (pushPart acc id p) id2 = accParts acc id2 := by
  induction acc with
  | nil => rfl
  | cons s rest ih =>
    by_cases hs : s.id = id
    · have hb : (s.id == id) = true := by simp [hs]
      have hs2 : s.id ≠ id2 := by rw [hs]; exact Ne.symm h
      simp only [pushPart, hb, if_true]
      rw [accParts_cons_neg _ rest id2 (by simpa using hs2),
        accParts_cons_neg s rest id2 hs2]
    · have hb : (s.id == id) = false := by simp [hs]
      simp only [pushPart, hb, if_false, Bool.false_eq_true]
      by_cases hs2 : s.id = id2
      · rw [accParts_cons_pos _ _ id2 hs2, accParts_cons_pos s rest id2 hs2]
      · rw [accParts_cons_neg _ _ id2 hs2, accParts_cons_neg s rest id2 hs2]
        exact ih

theorem accParts_append_new_self (acc : List Style) (x : Style)
    (h : acc.any (fun s => s.id == x.id) = false) :
    accParts (acc ++ [x]) x.id = x.parts := by
  induction acc with
  | nil => simpa using accParts_cons_pos x [] x.id rfl
  | cons s rest ih =>
    obtain ⟨h1, h2⟩ := any_cons_false h
    have hs : s.id ≠ x.id := by simpa using h1
    rw [List.cons_append, accParts_cons_neg s _ x.id hs]
    exact ih h2

theorem accParts_append_new_other (acc : List Style) (x : Style) (id2 : Nat)
    (h : id2 ≠ x.id) : accParts (acc ++ [x]) id2 = accParts acc id2 := by
  induction acc with
  | nil =>
    have hx : x.id ≠ id2 := Ne.symm h
    simp only [List.nil_append]
    rw [accParts_cons_neg x [] id2 hx]
  | cons s rest ih =>
    by_cases hs : s.id = id2
    · rw [List.cons_append, accParts_cons_pos _ _ id2 hs,
        accParts_cons_pos s rest id2 hs]
    · rw [List.cons_append, accParts_cons_neg _ _ id2 hs,
        accParts_cons_neg s rest id2 hs]
      exact ih

theorem accParts_nil (id : Nat) : accParts [] id = [] := rfl

theorem partsOf_cons_pos (item : Item) (rest : List Item) (id : Nat)
    (h : item.id = id) :
    partsOf (item :: rest) id =
      ⟨item.css, item.media, item.sourceMap⟩ :: partsOf rest id := by
  simp [partsOf, List.filter_cons, h]

theorem partsOf_cons_neg (item : Item) (rest : List Item) (id : Nat)
    (h : item.id ≠ id) : partsOf (item :: rest) id = partsOf rest id := by
  simp [partsOf, List.filter_cons, h]

theorem listToStylesAux_parts (rest : List Item) :
    ∀ (tok : Nat) (acc : List Style),
      (acc.map (fun t => t.id)).Nodup →
      ∀ s ∈ (listToStylesAux tok acc rest).1,
        s.parts = accParts acc s.id ++ partsOf rest s.id := by
  induction rest with
  | nil =>
    intro tok acc hnd s hs
    simp only [listToStylesAux] at hs
    have hfind : accParts acc s.id = s.parts := by
      simp [accParts, find?_eq_of_mem_nodup acc s hnd hs]
    simp [partsOf, hfind]
  | cons item rest ih =>
    intro tok acc hnd s hs
    cases h : acc.any (fun t => t.id == item.id) with
    | true =>
      simp only [listToStylesAux, h, if_true] at hs
      have hnd' : ((pushPart acc item.id
          ⟨item.css, item.media, item.sourceMap⟩).map (fun t => t.id)).Nodup := by
        rw [pushPart_map_id]; exact hnd
      have hparts := ih tok _ hnd' s hs
      by_cases hsid : s.id = item.id
      · rw [hparts, hsid, accParts_pushPart_self acc item.id _ h,
          partsOf_cons_pos item rest item.id rfl]
        simp
      · rw [hparts, accParts_pushPart_other acc item.id s.id _ hsid,
          partsOf_cons_neg item rest s.id (Ne.symm hsid)]
    | false =>
      simp only [listToStylesAux, h, if_false, Bool.false_eq_true] at hs
      have hnotin : item.id ∉ acc.map (fun t => t.id) := by
        intro hmem
        obtain ⟨t, htmem, htid⟩ := List.mem_map.mp hmem
        have := List.any_eq_false.mp h t htmem
        simp [htid] at this
      have hnd' : ((acc ++ [(⟨tok, item.id,
          [⟨item.css, item.media, item.sourceMap⟩]⟩ : Style)]).map
            (fun t => t.id)).Nodup := by
        simp only [List.map_append, List.map_cons, List.map_nil]
        simp [List.nodup_append, hnd, hnotin]
      have hparts := ih (tok + 1) _ hnd' s hs
      by_cases hsid : s.id = item.id
      · rw [hparts, hsid, accParts_append_new_self acc _ h,
          partsOf_cons_pos item rest item.id rfl]
        have hacc : accParts acc item.id = [] := by
          simp only [accParts]
          rw [List.find?_eq_none.mpr]
          · rfl
          · intro t htmem
            have := List.any_eq_false.mp h t htmem
            simpa using this
        rw [hacc]
        rfl
      · rw [hparts, accParts_append_new_other acc _ s.id hsid,
          partsOf_cons_neg item rest s.id (Ne.symm hsid)]

/-- C5: grouping preserves the first-seen order of distinct ids (with one
descriptor per distinct id), and each descriptor's parts are exactly the
tuples of its id taken in input order — in particular id-sharing tuples are
merged into a single descriptor by concatenation in input order. -/
theorem c5_grouping (list : List Item) (tok : Nat) :
    ((listToStyles tok list).1.map (fun s => s.id) =
      firstSeen (list.map (fun it => it.id))) ∧
    ((listToStyles tok list).1.map (fun s => s.id)).Nodup ∧
    (∀ s ∈ (listToStyles tok list).1, s.parts = partsOf list s.id) := by
  refine ⟨?_, ?_, ?_⟩
  · exact listToStylesAux_map_id list tok []
  · unfold listToStyles
    rw [listToStylesAux_map_id list tok []]
    exact firstSeenFrom_nodup _ [] List.nodup_nil
  · intro s hs
    have := listToStylesAux_parts list tok [] (by simp) s hs
    simpa [accParts_nil] using this

theorem c5_grouping_witness :
    (⟨0, 1, [⟨"a", "", ""⟩, ⟨"c", "", ""⟩]⟩ : Style).parts =
      partsOf [⟨1, "a", "", ""⟩, ⟨2, "b", "", ""⟩, ⟨1, "c", "", ""⟩] 1 :=
  (c5_grouping [⟨1, "a", "", ""⟩, ⟨2, "b", "", ""⟩, ⟨1, "c", "", ""⟩] 0).2.2
    ⟨0, 1, [⟨"a", "", ""⟩, ⟨"c", "", ""⟩]⟩ (by decide)

/-! ### C8: the link's href across updates -/

theorem freshUrl_ne_empty (sess : Sess) : freshUrl sess ≠ "" := by
  intro h
  have := congrArg String.length h
  simp [freshUrl, String.length_append] at this
  exact absurd this.1 (by decide)

theorem applyLinkOp_createUrl_elems (sess : Sess) (u content : String) :
    (applyLinkOp sess (LinkOp.createUrl u content)).elems = sess.elems := rfl

theorem applyLinkOp_revokeUrl_elems (sess : Sess) (u : String) :
    (applyLinkOp sess (LinkOp.revokeUrl u)).elems = sess.elems := rfl

theorem getElemState_elems_congr (s1 s2 : Sess) (e : Nat)
    (h : s1.elems = s2.elems) : getElemState s1 e = getElemState s2 e := by
  simp [getElemState, h]

theorem applyLinkOp_setHref_href (sess : Sess) (e : Nat) (u : String) :
    (getElemState (applyLinkOp sess (LinkOp.setHref e u)) e).href = u := by
  simp [applyLinkOp, getElemState_modElem_self]

/-- The href of the link element after one `updateLink` call is always the
freshly created object URL. -/
theorem updateLink_href (env : Env) (opts : Opts) (sess : Sess) (e : Nat)
    (obj : Part) :
    (getElemState (updateLink env opts sess e obj) e).href = freshUrl sess := by
  unfold updateLink updateLinkOps
  cases hold : (getElemState sess e).href != "" with
  | true =>
    simp only [hold, if_true, List.foldl_cons, List.foldl_nil, List.append_assoc,
      List.cons_append, List.nil_append]
    rw [getElemState_elems_congr _ (applyLinkOp
        (applyLinkOp sess (LinkOp.createUrl (freshUrl sess)
          (linkCss env opts obj))) (LinkOp.setHref e (freshUrl sess))) e
      (applyLinkOp_revokeUrl_elems _ _)]
    exact applyLinkOp_setHref_href _ e (freshUrl sess)
  | false =>
    simp only [hold, if_false, Bool.false_eq_true, List.append_nil,
      List.foldl_cons, List.foldl_nil]
    exact applyLinkOp_setHref_href _ e (freshUrl sess)

/-- Every micro-state within one `updateLink` call keeps a non-empty href,
provided the element's href was non-empty at entry. -/
theorem opStates_href_ne (env : Env) (opts : Opts) (sess : Sess) (e : Nat)
    (obj : Part) (hentry : (getElemState sess e).href ≠ "") :
    ∀ s ∈ opStates sess (updateLinkOps env opts sess e obj),
      (getElemState s e).href ≠ "" := by
  intro s hs
  simp only [updateLinkOps] at hs
  cases hold : (getElemState sess e).href != "" with
  | true =>
    simp only [hold, if_true, List.cons_append, List.nil_append, opStates,
      List.mem_cons, List.not_mem_nil, or_false] at hs
    rcases hs with rfl | rfl | rfl
    · rw [getElemState_elems_congr _ sess e (applyLinkOp_createUrl_elems _ _ _)]
      exact hentry
    · rw [getElemState_elems_congr _ (applyLinkOp
          (applyLinkOp sess (LinkOp.createUrl (freshUrl sess)
            (linkCss env opts obj))) (LinkOp.setHref e (freshUrl sess))) e rfl]
      rw [applyLinkOp_setHref_href]
      exact freshUrl_ne_empty sess
    · rw [getElemState_elems_congr _ (applyLinkOp
          (applyLinkOp sess (LinkOp.createUrl (freshUrl sess)
            (linkCss env opts obj))) (LinkOp.setHref e (freshUrl sess))) e
        (applyLinkOp_revokeUrl_elems _ _)]
      rw [applyLinkOp_setHref_href]
      exact freshUrl_ne_empty sess
  | false =>
    simp only [hold, if_false, Bool.false_eq_true, List.append_nil, opStates,
      List.mem_cons, List.not_mem_nil, or_false] at hs
    rcases hs with rfl | rfl
    · rw [getElemState_elems_congr _ sess e (applyLinkOp_createUrl_elems _ _ _)]
      exact hentry
    · rw [applyLinkOp_setHref_href]
      exact freshUrl_ne_empty sess

/-- The href invariant extends over any sequence of further updates. -/
theorem linkTrace_href_ne (env : Env) (opts : Opts) (e : Nat)
    (objs : List Part) :
    ∀ sess : Sess, (getElemState sess e).href ≠ "" →
      ∀ s ∈ linkTrace env opts e sess objs, (getElemState s e).href ≠ "" := by
  induction objs with
  | nil =>
    intro sess hentry s hs
    simp [linkTrace] at hs
  | cons obj rest ih =>
    intro sess hentry s hs
    simp only [linkTrace, List.mem_append] at hs
    rcases hs with hin | htail
    · exact opStates_href_ne env opts sess e obj hentry s hin
    · apply ih (updateLink env opts sess e obj) _ s htail
      rw [updateLink_href]
      exact freshUrl_ne_empty sess

/-- C8: each `updateLink` call first creates the blob URL, then assigns it
to the link's href, and only afterwards revokes the previous href's URL —
and only when a previous href existed.  Consequently, once the first update
has completed (from any starting state), the href is the fresh URL and every
observable micro-state of every later update keeps a non-empty href: there
is no step at which the link points at nothing. -/
theorem c8_href_never_empty (env : Env) (opts : Opts) :
    (∀ (sess : Sess) (e : Nat) (obj : Part),
      updateLinkOps env opts sess e obj =
        [LinkOp.createUrl (freshUrl sess) (linkCss env opts obj),
          LinkOp.setHref e (freshUrl sess)] ++
          (if (getElemState sess e).href != "" then
            [LinkOp.revokeUrl ((getElemState sess e).href)]
          else [])) ∧
    (∀ (sess : Sess) (e : Nat) (obj : Part),
      (getElemState (updateLink env opts sess e obj) e).href = freshUrl sess) ∧
    (∀ (sess : Sess) (e : Nat) (obj : Part) (objs : List Part),
      ∀ s ∈ linkTrace env opts e (updateLink env opts sess e obj) objs,
        (getElemState s e).href ≠ "") := by
  refine ⟨fun sess e obj => rfl, updateLink_href env opts, ?_⟩
  intro sess e obj objs s hs
  apply linkTrace_href_ne env opts e objs (updateLink env opts sess e obj) _ s hs
  rw [updateLink_href]
  exact freshUrl_ne_empty sess

theorem c8_href_never_empty_witness :
    (getElemState (c8trace.head (by decide)) 3).href ≠ "" :=
  (c8_href_never_empty envBlob bottomOpts).2.2 freshSess 3 c8obj [c8obj2]
    (c8trace.head (by decide)) (List.head_mem _)

/-! ### C6: the exact error conditions of install -/

theorem exceptOk_map {ε α β : Type} (x : Except ε α) (f : α → β) :
    exceptOk (x.map f) = exceptOk x := by
  cases x <;> rfl

theorem exceptOk_iff_ok {ε α : Type} (x : Except ε α) :
    exceptOk x = true ↔ ∃ v, x = .ok v := by
  cases x <;> simp [exceptOk]

theorem insertStyleElement_fail (env : Env) (opts : Opts) (e : Nat)
    (sess : Sess) (h : badOpts env opts) :
    exceptOk (insertStyleElement env opts e sess) = false := by
  rcases h with h | ⟨h1, h2⟩
  · simp [insertStyleElement, h, exceptOk]
  · cases ht : env.targetExists <;>
      simp [insertStyleElement, ht, h1, h2, exceptOk]

theorem insertStyleElement_ok (env : Env) (opts : Opts) (e : Nat)
    (sess : Sess) (h : goodOpts env opts) :
    exceptOk (insertStyleElement env opts e sess) = true := by
  obtain ⟨ht, hat⟩ := h
  rcases hat with hat | hat <;> simp [insertStyleElement, ht, hat, exceptOk]

theorem createElem_fail (env : Env) (opts : Opts) (isLink : Bool) (sess : Sess)
    (h : badOpts env opts) :
    exceptOk (createElem env opts isLink sess) = false := by
  simp only [createElem]
  rw [exceptOk_map]
  exact insertStyleElement_fail env opts _ _ h

theorem createElem_ok (env : Env) (opts : Opts) (isLink : Bool) (sess : Sess)
    (h : goodOpts env opts) :
    exceptOk (createElem env opts isLink sess) = true := by
  simp only [createElem]
  rw [exceptOk_map]
  exact insertStyleElement_ok env opts _ _ h

theorem addStyle_fail (env : Env) (opts : Opts) (obj : Part) (sess : Sess)
    (hb : badOpts env opts) (hse : sess.singletonElement = none) :
    exceptOk (addStyle env opts obj sess) = false := by
  unfold addStyle
  cases hsing : opts.singleton with
  | true =>
    simp only [hsing, if_true, hse, exceptOk_map, createStyleElement]
    exact createElem_fail env opts false _ hb
  | false =>
    cases hblob : obj.sourceMap != "" && env.hasBlobApis with
    | true =>
      simp only [hsing, hblob, if_true, if_false, Bool.false_eq_true,
        exceptOk_map, createLinkElement]
      exact createElem_fail env opts true _ hb
    | false =>
      simp only [hsing, hblob, if_false, Bool.false_eq_true, exceptOk_map,
        createStyleElement]
      exact createElem_fail env opts false _ hb

theorem addStyle_ok (env : Env) (opts : Opts) (obj : Part) (sess : Sess)
    (hg : goodOpts env opts) :
    exceptOk (addStyle env opts obj sess) = true := by
  unfold addStyle
  cases hsing : opts.singleton with
  | true =>
    cases hse : sess.singletonElement with
    | some e => simp [hsing, hse, exceptOk_map, exceptOk, Except.map]
    | none =>
      simp only [hsing, if_true, hse, exceptOk_map, createStyleElement]
      exact createElem_ok env opts false _ hg
  | false =>
    cases hblob : obj.sourceMap != "" && env.hasBlobApis with
    | true =>
      simp only [hsing, hblob, if_true, if_false, Bool.false_eq_true,
        exceptOk_map, createLinkElement]
      exact createElem_ok env opts true _ hg
    | false =>
      simp only [hsing, hblob, if_false, Bool.false_eq_true, exceptOk_map,
        createStyleElement]
      exact createElem_ok env opts false _ hg

theorem addStyles_cons (env : Env) (opts : Opts) (p : Part) (ps : List Part)
    (sess : Sess) :
    addStyles env opts (p :: ps) sess =
      (addStyle env opts p sess).bind (fun hp =>
        (addStyles env opts ps hp.2).bind
          (fun hps => .ok (hp.1 :: hps.1, hps.2))) := rfl

theorem addStyles_ok (env : Env) (opts : Opts) (hg : goodOpts env opts) :
    ∀ (ps : List Part) (sess : Sess),
      exceptOk (addStyles env opts ps sess) = true := by
  intro ps
  induction ps with
  | nil => intro sess; rfl
  | cons p ps ih =>
    intro sess
    rw [addStyles_cons]
    obtain ⟨hp, hhp⟩ := (exceptOk_iff_ok _).mp (addStyle_ok env opts p sess hg)
    rw [hhp]
    simp only [Except.bind]
    obtain ⟨hps, hhps⟩ := (exceptOk_iff_ok _).mp (ih hp.2)
    rw [hhps]
    rfl

theorem addStyles_cons_fail (env : Env) (opts : Opts) (p : Part)
    (ps : List Part) (sess : Sess)
    (h : exceptOk (addStyle env opts p sess) = false) :
    exceptOk (addStyles env opts (p :: ps) sess) = false := by
  rw [addStyles_cons]
  cases hx : addStyle env opts p sess with
  | ok v => rw [hx] at h; simp [exceptOk] at h
  | error err => rfl

theorem map_eq_ok {ε α β : Type} {x : Except ε α} {f : α → β} {b : β}
    (h : x.map f = .ok b) : ∃ a, x = .ok a ∧ f a = b := by
  cases x with
  | ok a => exact ⟨a, rfl, by simpa [Except.map] using h⟩
  | error e => simp [Except.map] at h

theorem bind_eq_ok {ε α β : Type} {x : Except ε α} {f : α → Except ε β}
    {b : β} (h : x.bind f = .ok b) : ∃ a, x = .ok a ∧ f a = .ok b := by
  cases x with
  | ok a => exact ⟨a, rfl, h⟩
  | error e => simp [Except.bind] at h

/-! Cache/heap preservation: no element-level operation touches the registry. -/

theorem applyLinkOp_pres (sess : Sess) (op : LinkOp) :
    (applyLinkOp sess op).cache = sess.cache ∧
      (applyLinkOp sess op).heap = sess.heap := by
  cases op <;> simp [applyLinkOp]

theorem foldl_applyLinkOp_pres (ops : List LinkOp) :
    ∀ sess : Sess, (ops.foldl applyLinkOp sess).cache = sess.cache ∧
      (ops.foldl applyLinkOp sess).heap = sess.heap := by
  induction ops with
  | nil => intro sess; exact ⟨rfl, rfl⟩
  | cons op ops ih =>
    intro sess
    simp only [List.foldl_cons]
    obtain ⟨h1, h2⟩ := ih (applyLinkOp sess op)
    obtain ⟨g1, g2⟩ := applyLinkOp_pres sess op
    exact ⟨h1.trans g1, h2.trans g2⟩

theorem updateLink_pres (env : Env) (opts : Opts) (sess : Sess) (e : Nat)
    (obj : Part) :
    (updateLink env opts sess e obj).cache = sess.cache ∧
      (updateLink env opts sess e obj).heap = sess.heap :=
  foldl_applyLinkOp_pres _ sess

theorem applyToSingletonTag_pres (env : Env) (sess : Sess) (e idx : Nat)
    (r : Bool) (obj : Option Part) :
    (applyToSingletonTag env sess e idx r obj).cache = sess.cache ∧
      (applyToSingletonTag env sess e idx r obj).heap = sess.heap := by
  cases h : env.hasStyleSheet <;> simp [applyToSingletonTag, h]

theorem applyToTag_pres (env : Env) (sess : Sess) (e : Nat) (obj : Part) :
    (applyToTag env sess e obj).cache = sess.cache ∧
      (applyToTag env sess e obj).heap = sess.heap := by
  cases hm : obj.media != "" <;> cases h2 : env.hasStyleSheet <;>
    simp [applyToTag, hm, h2]

theorem stratRemove_pres (env : Env) (sess : Sess) (st : Strategy) :
    (stratRemove env sess st).cache = sess.cache ∧
      (stratRemove env sess st).heap = sess.heap := by
  cases st with
  | singletonSlot e idx => exact applyToSingletonTag_pres env sess e idx true none
  | blobLink e =>
    simp only [stratRemove]
    split <;> exact ⟨rfl, rfl⟩
  | inlineTag e => exact ⟨rfl, rfl⟩

theorem stratUpdate_pres (env : Env) (opts : Opts) (sess : Sess)
    (st : Strategy) (obj : Part) :
    (stratUpdate env opts sess st obj).cache = sess.cache ∧
      (stratUpdate env opts sess st obj).heap = sess.heap := by
  cases st with
  | singletonSlot e idx =>
    exact applyToSingletonTag_pres env sess e idx false (some obj)
  | blobLink e => exact updateLink_pres env opts sess e obj
  | inlineTag e => exact applyToTag_pres env sess e obj

theorem runHandle_pres (env : Env) (sess : Sess) (h : Handle)
    (arg : Option Part) :
    ((runHandle env sess h arg).1).cache = sess.cache ∧
      ((runHandle env sess h arg).1).heap = sess.heap := by
  cases arg with
  | none => exact stratRemove_pres env sess h.strat
  | some o =>
    cases hc : (o.css == h.applied.css && o.media == h.applied.media &&
        o.sourceMap == h.applied.sourceMap) with
    | true => simp [runHandle, hc]
    | false =>
      simp only [runHandle, hc, if_false, Bool.false_eq_true]
      exact stratUpdate_pres env h.opts sess h.strat o

theorem runHandles_pres (env : Env) :
    ∀ (hs : List Handle) (ps : List Part) (sess : Sess),
      ((runHandles env sess hs ps).1).cache = sess.cache ∧
        ((runHandles env sess hs ps).1).heap = sess.heap := by
  intro hs
  induction hs with
  | nil => intro ps sess; exact ⟨rfl, rfl⟩
  | cons h hs ih =>
    intro ps sess
    simp only [runHandles]
    obtain ⟨a1, a2⟩ := runHandle_pres env sess h ps.head?
    obtain ⟨b1, b2⟩ := ih (ps.drop 1) (runHandle env sess h ps.head?).1
    exact ⟨b1.trans a1, b2.trans a2⟩

theorem insertStyleElement_pres (env : Env) (opts : Opts) (e : Nat)
    (sess : Sess) (s2 : Sess)
    (hx : insertStyleElement env opts e sess = .ok s2) :
    s2.cache = sess.cache ∧ s2.heap = sess.heap := by
  unfold insertStyleElement at hx
  split at hx
  · cases hx
  · split at hx
    · cases hx; exact ⟨rfl, rfl⟩
    · split at hx
      · cases hx; exact ⟨rfl, rfl⟩
      · cases hx

theorem createElem_pres (env : Env) (opts : Opts) (isLink : Bool)
    (sess : Sess) (e : Nat) (s2 : Sess)
    (hx : createElem env opts isLink sess = .ok (e, s2)) :
    s2.cache = sess.cache ∧ s2.heap = sess.heap := by
  simp only [createElem] at hx
  obtain ⟨s3, hins, hf⟩ := map_eq_ok hx
  cases hf
  obtain ⟨r1, r2⟩ := insertStyleElement_pres env opts sess.nextTok _ _ hins
  exact ⟨r1, r2⟩

theorem addStyle_pres (env : Env) (opts : Opts) (obj : Part) (sess : Sess)
    (h : Handle) (s2 : Sess)
    (hx : addStyle env opts obj sess = .ok (h, s2)) :
    s2.cache = sess.cache ∧ s2.heap = sess.heap := by
  unfold addStyle at hx
  cases hsing : opts.singleton with
  | true =>
    simp only [hsing, if_true] at hx
    obtain ⟨⟨e2, s3⟩, hel, hf⟩ := map_eq_ok hx
    cases hf
    obtain ⟨p1, p2⟩ :=
      applyToSingletonTag_pres env s3 e2 sess.singletonCounter false (some obj)
    cases hse : sess.singletonElement with
    | some e0 =>
      simp only [hse] at hel
      cases hel
      exact ⟨p1, p2⟩
    | none =>
      simp only [hse] at hel
      obtain ⟨⟨e3, s4⟩, hce, hf2⟩ := map_eq_ok hel
      simp only [createStyleElement] at hce
      cases hf2
      obtain ⟨q1, q2⟩ := createElem_pres env opts false _ e3 s4 hce
      exact ⟨p1.trans q1, p2.trans q2⟩
  | false =>
    cases hblob : obj.sourceMap != "" && env.hasBlobApis with
    | true =>
      simp only [hsing, hblob, if_true, if_false, Bool.false_eq_true,
        createLinkElement] at hx
      obtain ⟨⟨e2, s3⟩, hce, hf⟩ := map_eq_ok hx
      cases hf
      obtain ⟨q1, q2⟩ := createElem_pres env opts true sess e2 s3 hce
      obtain ⟨p1, p2⟩ := updateLink_pres env opts s3 e2 obj
      exact ⟨p1.trans q1, p2.trans q2⟩
    | false =>
      simp only [hsing, hblob, if_false, Bool.false_eq_true,
        createStyleElement] at hx
      obtain ⟨⟨e2, s3⟩, hce, hf⟩ := map_eq_ok hx
      cases hf
      obtain ⟨q1, q2⟩ := createElem_pres env opts false sess e2 s3 hce
      obtain ⟨p1, p2⟩ := applyToTag_pres env s3 e2 obj
      exact ⟨p1.trans q1, p2.trans q2⟩

theorem addStyles_pres (env : Env) (opts : Opts) :
    ∀ (ps : List Part) (sess : Sess) (r : List Handle × Sess),
      addStyles env opts ps sess = .ok r →
      r.2.cache = sess.cache ∧ r.2.heap = sess.heap := by
  intro ps
  induction ps with
  | nil =>
    intro sess r hx
    simp only [addStyles] at hx
    cases hx
    exact ⟨rfl, rfl⟩
  | cons p ps ih =>
    intro sess r hx
    rw [addStyles_cons] at hx
    obtain ⟨hp, hps1, hrest⟩ := bind_eq_ok hx
    obtain ⟨h0, s0⟩ := hp
    obtain ⟨hps, hps2, hfin⟩ := bind_eq_ok hrest
    cases hfin
    obtain ⟨a1, a2⟩ := addStyle_pres env opts p sess h0 s0 hps1
    obtain ⟨b1, b2⟩ := ih s0 hps hps2
    exact ⟨b1.trans a1, b2.trans a2⟩

theorem exceptOk_bind_false {ε α β : Type} (x : Except ε α)
    (f : α → Except ε β) (h : exceptOk x = false) :
    exceptOk (x.bind f) = false := by
  cases x with
  | ok a => simp [exceptOk] at h
  | error e => rfl

theorem lookupTok_eq_none_of_not_mem {α : Type} (l : List (Nat × α)) (k : Nat)
    (h : k ∉ l.map (fun p => p.1)) : lookupTok l k = none := by
  induction l with
  | nil => rfl
  | cons p rest ih =>
    obtain ⟨a, b⟩ := p
    simp only [List.map_cons, List.mem_cons] at h
    push_neg at h
    simp [lookupTok, Ne.symm h.1, ih h.2]

theorem cacheGet_none_of_not_mem (c : Cache) (s : Style)
    (h : s.id ∉ c.map (fun p => p.1)) : cacheGet c s = none := by
  rw [cacheGet_eq, lookupTok_eq_none_of_not_mem c s.id h]
  rfl

theorem mem_setTok_keys {α : Type} (l : List (Nat × α)) (key : Nat) (v : α) :
    ∀ k, k ∈ (setTok l key v).map (fun p => p.1) →
      k ∈ l.map (fun p => p.1) ∨ k = key := by
  induction l with
  | nil =>
    intro k h
    simp [setTok] at h
    exact Or.inr h
  | cons p rest ih =>
    obtain ⟨a, b⟩ := p
    intro k h
    by_cases ha : a = key
    · simp only [setTok, ha, if_true, beq_self_eq_true, List.map_cons,
        List.mem_cons] at h
      rcases h with rfl | h
      · exact Or.inr rfl
      · exact Or.inl (by simp [h])
    · have hb : (a == key) = false := by simp [ha]
      simp only [setTok, hb, if_false, Bool.false_eq_true, List.map_cons,
        List.mem_cons] at h
      rcases h with rfl | h
      · exact Or.inl (by simp)
      · rcases ih k h with h2 | h2
        · exact Or.inl (by simp [h2])
        · exact Or.inr h2

theorem mem_cacheSet_keys (c : Cache) (s : Style) (etok : Nat) (k : Nat)
    (h : k ∈ (cacheSet c s etok).map (fun p => p.1)) :
    k ∈ c.map (fun p => p.1) ∨ k = s.id := by
  rw [cacheSet_eq] at h
  exact mem_setTok_keys c s.id _ k h

theorem listToStyles_nodup_ids (list : List Item) (tok : Nat) :
    ((listToStyles tok list).1.map (fun s => s.id)).Nodup := by
  unfold listToStyles
  rw [listToStylesAux_map_id list tok []]
  exact firstSeenFrom_nodup _ [] List.nodup_nil

theorem addStylesToDom_cons_none (env : Env) (opts : Opts) (style : Style)
    (rest : List Style) (sess : Sess)
    (hget : cacheGet sess.cache style = none) :
    addStylesToDom env opts (style :: rest) sess =
      (addStyles env opts style.parts sess).bind (fun hp =>
        addStylesToDom env opts rest
          { hp.2 with nextTok := hp.2.nextTok + 1
                      heap := setTok hp.2.heap hp.2.nextTok ⟨style.id, 1, hp.1⟩
                      cache := cacheSet hp.2.cache style hp.2.nextTok }) := by
  simp only [addStylesToDom, hget]
  rfl

theorem addStylesToDom_ok_aux (env : Env) (opts : Opts)
    (hg : goodOpts env opts) :
    ∀ (styles : List Style) (sess : Sess),
      (styles.map (fun s => s.id)).Nodup →
      (∀ s ∈ styles, s.id ∉ sess.cache.map (fun p => p.1)) →
      ∃ s2, addStylesToDom env opts styles sess = .ok s2 ∧
        ∀ k ∈ s2.cache.map (fun p => p.1),
          k ∈ sess.cache.map (fun p => p.1) ∨
            k ∈ styles.map (fun s => s.id) := by
  intro styles
  induction styles with
  | nil =>
    intro sess _ _
    exact ⟨sess, rfl, fun k hk => Or.inl hk⟩
  | cons style rest ih =>
    intro sess hnd hdisj
    have hget : cacheGet sess.cache style = none :=
      cacheGet_none_of_not_mem _ _ (hdisj style (List.mem_cons_self _ _))
    rw [addStylesToDom_cons_none env opts style rest sess hget]
    obtain ⟨⟨hs, s1⟩, hads⟩ :=
      (exceptOk_iff_ok _).mp (addStyles_ok env opts hg style.parts sess)
    rw [hads]
    simp only [Except.bind]
    obtain ⟨c1, _⟩ := addStyles_pres env opts style.parts sess (hs, s1) hads
    rw [List.map_cons, List.nodup_cons] at hnd
    have hdisj2 : ∀ s ∈ rest,
        s.id ∉ (cacheSet s1.cache style s1.nextTok).map (fun p => p.1) := by
      intro s hsmem hk
      rcases mem_cacheSet_keys _ _ _ _ hk with hk | hk
      · rw [c1] at hk
        exact hdisj s (List.mem_cons_of_mem _ hsmem) hk
      · apply hnd.1
        rw [← hk]
        exact List.mem_map_of_mem _ hsmem
    obtain ⟨s2, hrec, hkeys⟩ := ih
      { s1 with nextTok := s1.nextTok + 1
                heap := setTok s1.heap s1.nextTok ⟨style.id, 1, hs⟩
                cache := cacheSet s1.cache style s1.nextTok } hnd.2 hdisj2
    refine ⟨s2, hrec, ?_⟩
    intro k hk
    rcases hkeys k hk with hk2 | hk2
    · rcases mem_cacheSet_keys _ _ _ _ hk2 with hk3 | hk3
      · rw [c1] at hk3
        exact Or.inl hk3
      · exact Or.inr (by simp [hk3])
    · exact Or.inr (by simp only [List.map_cons]; exact List.mem_cons_of_mem _ hk2)

theorem install_ok (env : Env) (o : OptionsIn) (list : List Item)
    (hg : goodOpts env (normalizeOpts env o)) :
    exceptOk (install env o list freshSess) = true := by
  simp only [install]
  rw [exceptOk_map]
  obtain ⟨s2, hok, _⟩ := addStylesToDom_ok_aux env (normalizeOpts env o) hg
    (listToStyles freshSess.nextTok list).1
    { freshSess with nextTok := (listToStyles freshSess.nextTok list).2 }
    (listToStyles_nodup_ids list _)
    (by intro s _ hk; simp [freshSess] at hk)
  rw [hok]
  rfl

theorem pushPart_parts_ne (acc : List Style) (id : Nat) (p : Part)
    (h : ∀ s ∈ acc, s.parts ≠ []) : ∀ s ∈ pushPart acc id p, s.parts ≠ [] := by
  induction acc with
  | nil => intro s hs; cases hs
  | cons a rest ih =>
    intro s hs
    by_cases ha : a.id = id
    · have hb : (a.id == id) = true := by simp [ha]
      simp only [pushPart, hb, if_true, List.mem_cons] at hs
      rcases hs with rfl | hs
      · simp
      · exact h s (List.mem_cons_of_mem a hs)
    · have hb : (a.id == id) = false := by simp [ha]
      simp only [pushPart, hb, if_false, Bool.false_eq_true,
        List.mem_cons] at hs
      rcases hs with rfl | hs
      · exact h _ (List.mem_cons_self _ rest)
      · exact ih (fun t ht => h t (List.mem_cons_of_mem a ht)) s hs

theorem listToStylesAux_parts_ne (rest : List Item) :
    ∀ (tok : Nat) (acc : List Style), (∀ s ∈ acc, s.parts ≠ []) →
      ∀ s ∈ (listToStylesAux tok acc rest).1, s.parts ≠ [] := by
  induction rest with
  | nil =>
    intro tok acc h s hs
    exact h s (by simpa [listToStylesAux] using hs)
  | cons item rest ih =>
    intro tok acc h s hs
    cases hany : acc.any (fun t => t.id == item.id) with
    | true =>
      simp only [listToStylesAux, hany, if_true] at hs
      exact ih tok _ (pushPart_parts_ne acc item.id _ h) s hs
    | false =>
      simp only [listToStylesAux, hany, if_false, Bool.false_eq_true] at hs
      refine ih _ _ ?_ s hs
      intro t ht
      rcases List.mem_append.mp ht with ht | ht
      · exact h t ht
      · simp only [List.mem_singleton] at ht
        subst ht
        simp

theorem listToStylesAux_ne_nil (rest : List Item) :
    ∀ (tok : Nat) (acc : List Style), (acc ≠ [] ∨ rest ≠ []) →
      (listToStylesAux tok acc rest).1 ≠ [] := by
  induction rest with
  | nil =>
    intro tok acc h
    rcases h with h | h
    · simpa [listToStylesAux] using h
    · simp at h
  | cons item rest ih =>
    intro tok acc _
    cases hany : acc.any (fun t => t.id == item.id) with
    | true =>
      have hacc : acc ≠ [] := by
        rintro rfl
        simp [List.any_nil] at hany
      simp only [listToStylesAux, hany, if_true]
      apply ih
      left
      intro hnil
      apply hacc
      have := congrArg (List.map (fun s => s.id)) hnil
      rw [pushPart_map_id] at this
      simpa using this
    | false =>
      simp only [listToStylesAux, hany, if_false, Bool.false_eq_true]
      apply ih
      left
      simp

theorem install_fail (env : Env) (o : OptionsIn) (list : List Item)
    (hb : badOpts env (normalizeOpts env o)) (hne : list ≠ []) :
    exceptOk (install env o list freshSess) = false := by
  simp only [install]
  rw [exceptOk_map]
  obtain ⟨item, rest, rfl⟩ := List.exists_cons_of_ne_nil hne
  have hsne : (listToStyles freshSess.nextTok (item :: rest)).1 ≠ [] :=
    listToStylesAux_ne_nil (item :: rest) freshSess.nextTok []
      (Or.inr (by simp))
  obtain ⟨s0, srest, hsplit⟩ := List.exists_cons_of_ne_nil hsne
  have hs0mem : s0 ∈ (listToStyles freshSess.nextTok (item :: rest)).1 := by
    rw [hsplit]
    exact List.mem_cons_self _ _
  have hparts : s0.parts ≠ [] :=
    listToStylesAux_parts_ne (item :: rest) freshSess.nextTok []
      (by intro s hs; cases hs) s0 hs0mem
  obtain ⟨p0, prest, hp0⟩ := List.exists_cons_of_ne_nil hparts
  rw [hsplit]
  rw [addStylesToDom_cons_none env (normalizeOpts env o) s0 srest
    { freshSess with
      nextTok := (listToStyles freshSess.nextTok (item :: rest)).2 } rfl]
  apply exceptOk_bind_false
  rw [hp0]
  apply addStyles_cons_fail
  exact addStyle_fail env (normalizeOpts env o) p0 _ hb rfl

/-- C6: from a fresh session, installing a non-empty list throws exactly
when the configured insertion target cannot be resolved or `insertAt` (after
defaulting to bottom) is neither top nor bottom; under any other
environment — source map or not, blob support or not — install returns
normally, the fallbacks never raising an error. -/
theorem c6_error_conditions (env : Env) (o : OptionsIn) (list : List Item)
    (hne : list ≠ []) :
    exceptOk (install env o list freshSess) = true ↔
      (env.targetExists = true ∧
        (o.insertAt.getD "bottom" = "top" ∨
          o.insertAt.getD "bottom" = "bottom")) := by
  constructor
  · intro h
    by_contra hc
    have hb : badOpts env (normalizeOpts env o) := by
      rw [Decidable.not_and_iff_or_not] at hc
      rcases hc with hc | hc
      · left
        simp only [Bool.not_eq_true] at hc
        exact hc
      · right
        rw [not_or] at hc
        exact hc
    rw [install_fail env o list hb hne] at h
    cases h
  · intro hgood
    exact install_ok env o list ⟨hgood.1, hgood.2⟩

theorem c6_error_conditions_witness :
    exceptOk (install envInline {} c4list freshSess) = true :=
  (c6_error_conditions envInline {} c4list (by decide)).mpr ⟨rfl, Or.inr rfl⟩

end StyleLoader
